import Mathlib

/-!
Shallow embedding of the coffee-leaf-disease training stack
(`src/model/cnn.py` and `src/model/data_loader.py`).

Python/numpy/torch values are embedded as follows: machine integers as `Nat`
(all quantities here are nonnegative sizes, counts or digit labels),
floating-point scalars as `ℚ` (every claim under study concerns exact
arithmetic identities, which hold in exact arithmetic), strings as `List Char`,
tensors as nested lists, dictionaries as association lists, and fallible
operations as `Option`-valued functions.
-/

namespace CoffeeLeaf

/-! ### Shape semantics of `Net` (`cnn.py`, lines 41-95)

`torch.nn.Conv2d(cin, cout, k, stride=s, padding=p)` maps a spatial dimension
`n` to `(n + 2*p - k) / s + 1` (floor division), and
`torch.nn.MaxPool2d(k, stride=s)` maps `n` to `(n - k) / s + 1`. -/

def conv2dOutDim (n k s p : ℕ) : ℕ := (n + 2 * p - k) / s + 1

def maxPool2dOutDim (n k s : ℕ) : ℕ := (n - k) / s + 1

/-- Spatial dimension after the four convolution + pool blocks of
`Net.forward` (`cnn.py` lines 41-55 give the layer parameters, 74-85 the
application order): conv0 (k=11,s=4,p=2), pool0 (2,2); conv1 (k=5,s=2,p=2),
pool1 (2,2); conv2 (k=3,s=1,p=2), pool2 (2,2); conv3 (k=3,s=1,p=2),
pool3 (2,2). -/
def netConvOutDim (d : ℕ) : ℕ :=
  let d0 := maxPool2dOutDim (conv2dOutDim d 11 4 2) 2 2
  let d1 := maxPool2dOutDim (conv2dOutDim d0 5 2 2) 2 2
  let d2 := maxPool2dOutDim (conv2dOutDim d1 3 1 2) 2 2
  let d3 := maxPool2dOutDim (conv2dOutDim d2 3 1 2) 2 2
  d3

/-- Number of scalars per image after the conv stack: the final block has 148
output channels (`cnn.py` line 53). -/
def netFlatFeatures (d : ℕ) : ℕ := 148 * netConvOutDim d * netConvOutDim d

/-- Semantics of `t.view(-1, cols)` (`cnn.py` line 88): succeeds with `total / cols` rows
exactly when `cols` divides the total number of elements, otherwise torch
raises a RuntimeError. -/
def viewRows (total cols : ℕ) : Option ℕ :=
  if cols ∣ total then some (total / cols) else none

/-- Output shape of `Net.forward` on a batch of `n` images of spatial size
`d × d`: the conv stack yields `n * netFlatFeatures d` scalars, `view(-1,
1332)` reshapes them to `m × 1332` rows (`cnn.py` line 88), and the
fully-connected layers 1332→600→200→6 (`cnn.py` lines 58-60, 90-93) map each
row to 6 logits. -/
def netForwardShape (n d : ℕ) : Option (ℕ × ℕ) :=
  (viewRows (n * netFlatFeatures d) 1332).map (fun m => (m, 6))

/-! ### Value-level semantics of the convolutional blocks (`cnn.py`, 62-85)

Tensors are nested lists of exact scalars: `Tensor2` is one channel
(rows × cols), `Tensor3` one image (channels × rows × cols). -/

abbrev Tensor1 := List ℚ

abbrev Tensor2 := List Tensor1

abbrev Tensor3 := List Tensor2

/-- Elementwise `F.relu`. -/
def reluT3 (t : Tensor3) : Tensor3 := t.map (List.map (List.map (fun v => max v 0)))

/-- Element of a channel at possibly out-of-range integer coordinates; zero
outside, which realises the zero padding of `Conv2d`. -/
def at2 (t : Tensor2) (i j : ℤ) : ℚ :=
  if 0 ≤ i ∧ 0 ≤ j then (t.getD i.toNat []).getD j.toNat 0 else 0

/-- One output scalar of a single-kernel-channel correlation against one input
channel, at output position `(i, j)`, with the given stride and padding. -/
def convAt (ker xc : Tensor2) (stride pad i j : ℕ) : ℚ :=
  (ker.enum.map (fun ar =>
    (ar.2.enum.map (fun bw =>
      bw.2 * at2 xc ((i * stride + ar.1 : ℤ) - pad) ((j * stride + bw.1 : ℤ) - pad))).sum)).sum

/-- Semantics of `torch.nn.Conv2d` in functional form: `weight` is outChannels ×
inChannels × kH × kW, `bias` one scalar per output channel. -/
def conv2d (weight : List Tensor3) (bias : List ℚ) (stride pad : ℕ)
    (x : Tensor3) : Tensor3 :=
  let inH := (x.headD []).length
  let inW := ((x.headD []).headD []).length
  let kH := ((weight.headD []).headD []).length
  let kW := (((weight.headD []).headD []).headD []).length
  let outH := conv2dOutDim inH kH stride pad
  let outW := conv2dOutDim inW kW stride pad
  (weight.zip bias).map (fun ob =>
    (List.range outH).map (fun i =>
      (List.range outW).map (fun j =>
        ob.2 + ((ob.1.zip x).map (fun kx => convAt kx.1 kx.2 stride pad i j)).sum)))

def listMax : List ℚ → ℚ
  | [] => 0
  | v :: vs => vs.foldl max v

/-- Semantics of `torch.nn.MaxPool2d(k, stride=s)` on one channel. -/
def maxPool2dChan (k s : ℕ) (xc : Tensor2) : Tensor2 :=
  (List.range (maxPool2dOutDim xc.length k s)).map (fun i =>
    (List.range (maxPool2dOutDim (xc.headD []).length k s)).map (fun j =>
      listMax (((List.range k).map (fun a =>
        (List.range k).map (fun b =>
          (xc.getD (i * s + a) []).getD (j * s + b) 0))).flatten)))

def maxPool2d (k s : ℕ) (x : Tensor3) : Tensor3 := x.map (maxPool2dChan k s)

/-- Per-channel affine parameters of a `BatchNorm2d` layer in evaluation
form: `y = (x - mean) * invstd * gamma + beta`, where `invstd` stands for the
precomputed `1 / sqrt(var + eps)` (the square root itself is not rational, so
its value enters as a parameter). -/
structure BNPar where
  gamma : List ℚ
  beta : List ℚ
  mean : List ℚ
  invstd : List ℚ

def bn2d (p : BNPar) (x : Tensor3) : Tensor3 :=
  x.enum.map (fun cx =>
    cx.2.map (List.map (fun v =>
      (v - p.mean.getD cx.1 0) * p.invstd.getD cx.1 1 * p.gamma.getD cx.1 1
        + p.beta.getD cx.1 0)))

/-- Weights of one convolution layer. -/
structure ConvPar where
  weight : List Tensor3
  bias : List ℚ

/-- All learnable parameters of `Net` used by the convolutional blocks
(`cnn.py` lines 41-55). -/
structure NetParams where
  conv0 : ConvPar
  bn0 : BNPar
  conv1 : ConvPar
  bn1 : BNPar
  conv2 : ConvPar
  bn2 : BNPar
  conv3 : ConvPar
  bn3 : BNPar

/-- The normalize → pool → activate composition pattern of blocks 0, 2 and 3:
`s = bnK(convK(s)); s = F.relu(poolK(s))` (`cnn.py` lines 74-75, 81-82,
84-85). -/
def normPoolActivate (conv bn pool : Tensor3 → Tensor3) (s : Tensor3) : Tensor3 :=
  reluT3 (pool (bn (conv s)))

def block0 (p : NetParams) (s : Tensor3) : Tensor3 :=
  normPoolActivate (conv2d p.conv0.weight p.conv0.bias 4 2) (bn2d p.bn0) (maxPool2d 2 2) s

/-- Block 1 exactly as written in `cnn.py` lines 77-79: three separate
statements `s = self.bn1(self.conv1(s))`, `s = self.pool1(s)`,
`s = F.relu(s)`. -/
def block1Steps (p : NetParams) (s : Tensor3) : Tensor3 :=
  let s1 := bn2d p.bn1 (conv2d p.conv1.weight p.conv1.bias 2 2 s)
  let s2 := maxPool2d 2 2 s1
  reluT3 s2

def block2 (p : NetParams) (s : Tensor3) : Tensor3 :=
  normPoolActivate (conv2d p.conv2.weight p.conv2.bias 1 2) (bn2d p.bn2) (maxPool2d 2 2) s

def block3 (p : NetParams) (s : Tensor3) : Tensor3 :=
  normPoolActivate (conv2d p.conv3.weight p.conv3.bias 1 2) (bn2d p.bn3) (maxPool2d 2 2) s

/-- The convolutional part of `Net.forward` (`cnn.py` lines 74-85). -/
def netConvStack (p : NetParams) (s : Tensor3) : Tensor3 :=
  block3 p (block2 p (block1Steps p (block0 p s)))

/-! ### Metric `accuracy` (`cnn.py`, lines 116-127) -/

/-- Semantics of `np.argmax` over a 1-D array: index of the first occurrence of the
maximum. -/
def npArgmaxAux : List ℚ → ℕ → ℕ → ℚ → ℕ
  | [], _, best, _ => best
  | x :: xs, i, best, bv =>
      if bv < x then npArgmaxAux xs (i + 1) i x else npArgmaxAux xs (i + 1) best bv

def npArgmax : List ℚ → ℕ
  | [] => 0
  | x :: xs => npArgmaxAux xs 1 0 x

/-- Embedding of `accuracy(outputs, labels)` (`cnn.py` lines 126-127):
`outputs = np.argmax(outputs, axis=1); return np.sum(outputs == labels) /
float(labels.size)`.  The division by `float(labels.size)` is a division by
zero when the batch is empty; that fault is embedded as `none`. -/
def accuracy (outputs : List (List ℚ)) (labels : List ℕ) : Option ℚ :=
  let preds := outputs.map npArgmax
  let nMatch := (preds.zip labels).countP (fun pr => pr.1 == pr.2)
  if labels.length = 0 then none
  else some ((nMatch : ℚ) / (labels.length : ℚ))

/-! ### `data_loader.py`: dataset, weighted sampler, loaders

Python strings are embedded as `List Char`. -/

abbrev PyStr := List Char

/-- Semantics of Python `int(c)` for a single character: the digit value for
'0'..'9', otherwise a ValueError, an uncaught fault embedded as `none`. -/
def pyIntOfChar (c : Char) : Option ℕ :=
  if c.isDigit then some (c.toNat - '0'.toNat) else none

/-- Label of one directory entry: `int(os.path.split(filename)[-1][0])`
(`data_loader.py` line 26).  `os.path.split` of `os.path.join(data_dir, f)`
recovers the entry `f`, so the label is the value of the first character of `f`;
an empty name (IndexError) or a non-digit first character (ValueError) is an
uncaught fault. -/
def parseLabel : PyStr → Option ℕ
  | [] => none
  | c :: _ => pyIntOfChar c

def parseLabels : List PyStr → Option (List ℕ)
  | [] => some []
  | f :: fs =>
    match parseLabel f, parseLabels fs with
    | some l, some ls => some (l :: ls)
    | _, _ => none

structure LeafDataset where
  filenames : List PyStr
  labels : List ℕ

def jpgSuffix : PyStr := ['.', 'j', 'p', 'g']

/-- Semantics of `os.path.join(data_dir, f)` for a separator-free entry `f`. -/
def pathJoin (dataDir f : PyStr) : PyStr := dataDir ++ '/' :: f

/-- Embedding of `LeafDataset.__init__` (`data_loader.py` lines 23-27):
filter the directory listing to entries ending in ".jpg", join each with the
directory, and parse every label from the first character of each entry. -/
def leafDatasetInit (dataDir : PyStr) (listing : List PyStr) : Option LeafDataset :=
  match parseLabels (listing.filter (fun f => jpgSuffix.isSuffixOf f)) with
  | some ls =>
      some ⟨(listing.filter (fun f => jpgSuffix.isSuffixOf f)).map (pathJoin dataDir), ls⟩
  | none => none

/-- Embedding of `LeafDataset.__len__` (`data_loader.py` lines 29-31). -/
def LeafDataset.size (d : LeafDataset) : ℕ := d.filenames.length

/-- Result of `dict(Counter(labels))` as an association list
(`data_loader.py` line 34); dictionary ordering is immaterial to every
property below. -/
def classCountsDict (labels : List ℕ) : List (ℕ × ℕ) :=
  labels.dedup.map (fun k => (k, labels.count k))

def LeafDataset.get_classes_counts (d : LeafDataset) : List (ℕ × ℕ) :=
  classCountsDict d.labels

/-- Embedding of `total_count = sum(multiclass_dict.values())` (`data_loader.py` line 73). -/
def total_count (labels : List ℕ) : ℕ :=
  ((classCountsDict labels).map (fun kv => kv.2)).sum

/-- Embedding of `class_weights = dict([(k, total_count/v) for (k, v) in
multiclass_dict.items()])` (`data_loader.py` line 76). -/
def class_weights (labels : List ℕ) : List (ℕ × ℚ) :=
  (classCountsDict labels).map (fun kv => (kv.1, (total_count labels : ℚ) / (kv.2 : ℚ)))

/-- Python dict subscript `class_weights[label]`. -/
def dictGet (d : List (ℕ × ℚ)) (k : ℕ) : ℚ := (d.lookup k).getD 0

/-- Embedding of `img_weights = [class_weights[label] for label in train_dataset.labels]`
(`data_loader.py` line 77). -/
def img_weights (labels : List ℕ) : List ℚ :=
  labels.map (fun l => dictGet (class_weights labels) l)

/-- Single draw of `torch.multinomial` with replacement, the primitive behind
`WeightedRandomSampler`: partition `[0, sum weights)` into consecutive
intervals whose lengths are the weights and return the index of the interval
containing `u * sum weights`, where `u ∈ [0,1)` is the uniform
variate of this draw. -/
def pickAux : List ℚ → ℚ → ℕ → ℕ
  | [], _, i => i
  | [_], _, i => i
  | w :: ws, t, i => if t < w then i else pickAux ws (t - w) (i + 1)

def multinomialPick (weights : List ℚ) (u : ℚ) : ℕ :=
  pickAux weights (u * weights.sum) 0

/-- Embedding of `sampler.WeightedRandomSampler(img_weights, total_count)`
(`data_loader.py` line 79): `numSamples` draws with replacement, the `i`-th
from the `i`-th uniform variate of the random source `u`. -/
def weightedRandomSampler (weights : List ℚ) (numSamples : ℕ) (u : ℕ → ℚ) : List ℕ :=
  (List.range numSamples).map (fun i => multinomialPick weights (u i))

/-- Semantics of `BatchSampler(sampler, batch_size, drop_last)`: consecutive
groups of `batchSize` indices; when `dropLast` is true the final incomplete
group is discarded. -/
def batchSampler (idxs : List ℕ) (batchSize : ℕ) (dropLast : Bool) : List (List ℕ) :=
  let nFull := idxs.length / batchSize
  let full := (List.range nFull).map (fun i => (idxs.drop (i * batchSize)).take batchSize)
  let rest := idxs.drop (nFull * batchSize)
  if dropLast then full else if rest.isEmpty then full else full ++ [rest]

/-- Embedding of `get_batched_weighted_sampler` (`data_loader.py` lines 70-81); the
drop-last flag passed to `BatchSampler` is the literal `True` at line 80. -/
def get_batched_weighted_sampler (batchSize : ℕ) (labels : List ℕ) (u : ℕ → ℚ) :
    List (List ℕ) :=
  batchSampler (weightedRandomSampler (img_weights labels) (total_count labels) u)
    batchSize true

/-- The hyperparameters consumed by `fetch_dataloader`; `weighed_sampling` is
`none` when the attribute is absent (`hasattr` is false). -/
structure Params where
  batch_size : ℕ
  num_workers : ℕ
  cuda : Bool
  img_dimension : ℕ
  weighed_sampling : Option Bool

/-- The three `DataLoader` configurations constructed by `fetch_dataloader`:
`shuffled` is `DataLoader(..., shuffle=True)` (line 106), `weightedBatches`
is `DataLoader(..., batch_sampler=weighted_sampler)` (line 109), `sequential`
is the `shuffle=False` evaluation loader (line 115). -/
inductive LoaderCfg
  | shuffled (batchSize : ℕ)
  | weightedBatches (batchSize : ℕ)
  | sequential (batchSize : ℕ)
deriving DecidableEq

/-- Loader selection for the training split (`data_loader.py` lines
106-113). -/
def trainLoader (p : Params) : LoaderCfg :=
  let dl_orig := LoaderCfg.shuffled p.batch_size
  let dl_class_weighed := LoaderCfg.weightedBatches p.batch_size
  let is_weighed := match p.weighed_sampling with
    | some b => b
    | none => false
  if is_weighed then dl_class_weighed else dl_orig

def trainName : PyStr := ['t', 'r', 'a', 'i', 'n']

def valName : PyStr := ['v', 'a', 'l']

def testName : PyStr := ['t', 'e', 's', 't']

/-- Embedding of `fetch_dataloader` (`data_loader.py` lines 83-121), reduced to the
dictionary of loader configurations it returns: iterate over
`['train', 'val', 'test']` and keep exactly the splits occurring in
`types`. -/
def fetch_dataloader (types : List PyStr) (p : Params) : List (PyStr × LoaderCfg) :=
  (([trainName, valName, testName]).filter (fun s => s ∈ types)).map (fun split =>
    (split, if split = trainName then trainLoader p else LoaderCfg.sequential p.batch_size))

/-! ### Supporting lemmas -/

theorem classCounts_values_sum (labels : List ℕ) :
    ((classCountsDict labels).map (fun kv => kv.2)).sum = labels.length := by
  unfold classCountsDict
  rw [List.map_map]
  simpa using List.sum_map_count_dedup_eq_length labels

theorem total_count_eq_length (labels : List ℕ) : total_count labels = labels.length :=
  classCounts_values_sum labels

theorem lookup_map_pair {β : Type} (f : ℕ → β) (l : List ℕ) (k : ℕ) (h : k ∈ l) :
    (l.map (fun x => (x, f x))).lookup k = some (f k) := by
  induction l with
  | nil => cases h
  | cons a t ih =>
    rcases eq_or_ne k a with rfl | hk
    · simp [List.lookup]
    · rcases List.mem_cons.mp h with rfl | ht
      · exact absurd rfl hk
      · simpa [List.lookup, beq_false_of_ne hk] using ih ht

theorem dictGet_class_weights (labels : List ℕ) (k : ℕ) (hk : k ∈ labels) :
    dictGet (class_weights labels) k
      = (total_count labels : ℚ) / (labels.count k : ℚ) := by
  unfold dictGet class_weights classCountsDict
  rw [List.map_map]
  have hmem : k ∈ labels.dedup := List.mem_dedup.mpr hk
  rw [show ((fun kv : ℕ × ℕ => (kv.1, (total_count labels : ℚ) / (kv.2 : ℚ))) ∘
        fun k => (k, labels.count k))
      = fun x => (x, (total_count labels : ℚ) / (labels.count x : ℚ)) from rfl]
  rw [lookup_map_pair _ _ _ hmem]
  rfl

theorem img_weights_getD (labels : List ℕ) (i : ℕ) (h : i < labels.length) :
    (img_weights labels).getD i 0
      = dictGet (class_weights labels) (labels.getD i 0) := by
  unfold img_weights
  have hm : i < (labels.map (fun l => dictGet (class_weights labels) l)).length := by
    simpa using h
  rw [List.getD_eq_getElem _ _ hm, List.getElem_map, List.getD_eq_getElem _ _ h]

theorem img_weights_sum (labels : List ℕ) :
    (img_weights labels).sum
      = (labels.dedup.length : ℚ) * (total_count labels : ℚ) := by
  unfold img_weights
  rw [List.map_congr_left (fun a ha => dictGet_class_weights labels a ha)]
  rw [Finset.sum_list_map_count]
  rw [Finset.sum_congr rfl (fun m hm => ?_), Finset.sum_const, List.card_toFinset,
    nsmul_eq_mul]
  have hpos : 0 < labels.count m := List.count_pos_iff.mpr (List.mem_toFinset.mp hm)
  have hc : ((labels.count m : ℚ)) ≠ 0 := by
    exact_mod_cast hpos.ne'
  rw [nsmul_eq_mul]
  field_simp

theorem countP_zip_range (a b : List ℕ) (h : a.length = b.length) :
    (a.zip b).countP (fun pr => pr.1 == pr.2)
      = (List.range b.length).countP (fun i => a.getD i 0 == b.getD i 0) := by
  induction a generalizing b with
  | nil =>
    cases b with
    | nil => simp
    | cons y ys => simp at h
  | cons x xs ih =>
    cases b with
    | nil => simp at h
    | cons y ys =>
      have hlen : xs.length = ys.length := by simpa using h
      rw [List.zip_cons_cons, List.countP_cons, ih ys hlen,
        List.length_cons, List.range_succ_eq_map, List.countP_cons, List.countP_map]
      simp [Function.comp_def]

theorem parseLabels_length (fs : List PyStr) (ls : List ℕ)
    (h : parseLabels fs = some ls) : ls.length = fs.length := by
  induction fs generalizing ls with
  | nil =>
    simp only [parseLabels, Option.some_inj] at h
    subst h; rfl
  | cons f ft ih =>
    unfold parseLabels at h
    cases hp : parseLabel f with
    | none => rw [hp] at h; cases h
    | some l =>
      rw [hp] at h
      cases hr : parseLabels ft with
      | none => rw [hr] at h; cases h
      | some ls2 =>
        rw [hr, Option.some_inj] at h
        subst h
        simpa using ih ls2 hr

theorem parseLabels_getD (fs : List PyStr) (ls : List ℕ)
    (h : parseLabels fs = some ls) :
    ∀ i, i < fs.length → parseLabel (fs.getD i []) = some (ls.getD i 0) := by
  induction fs generalizing ls with
  | nil => intro i hi; cases hi
  | cons f ft ih =>
    unfold parseLabels at h
    cases hp : parseLabel f with
    | none => rw [hp] at h; cases h
    | some l =>
      rw [hp] at h
      cases hr : parseLabels ft with
      | none => rw [hr] at h; cases h
      | some ls2 =>
        rw [hr, Option.some_inj] at h
        subst h
        intro i hi
        cases i with
        | zero => simpa using hp
        | succ j =>
          have hj : j < ft.length := by simpa using hi
          simpa using ih ls2 hr j hj

theorem parseLabels_eq_none_iff (fs : List PyStr) :
    parseLabels fs = none ↔ ∃ f ∈ fs, parseLabel f = none := by
  induction fs with
  | nil => simp [parseLabels]
  | cons f ft ih =>
    constructor
    · intro h
      unfold parseLabels at h
      cases hp : parseLabel f with
      | none => exact ⟨f, List.mem_cons_self f ft, hp⟩
      | some l =>
        rw [hp] at h
        cases hr : parseLabels ft with
        | none =>
          rcases ih.mp hr with ⟨g, hg, hgn⟩
          exact ⟨g, List.mem_cons_of_mem f hg, hgn⟩
        | some ls2 => rw [hr] at h; cases h
    · rintro ⟨g, hg, hgn⟩
      unfold parseLabels
      rcases List.mem_cons.mp hg with rfl | hgt
      · rw [hgn]
      · rw [ih.mpr ⟨g, hgt, hgn⟩]
        cases parseLabel f <;> rfl

theorem pyIntOfChar_le_nine (c : Char) (l : ℕ) (h : pyIntOfChar c = some l) :
    l ≤ 9 := by
  unfold pyIntOfChar at h
  by_cases hd : c.isDigit
  · rw [if_pos hd] at h
    have hval : c.val.toNat ≤ 57 := by
      simp [Char.isDigit] at hd
      exact hd.2
    have h48 : ('0'.toNat) = 48 := rfl
    have hc : c.toNat = c.val.toNat := rfl
    have hl : l = c.toNat - '0'.toNat := (Option.some_inj.mp h).symm
    omega
  · rw [if_neg hd] at h; cases h

theorem chunk_length (l : List ℕ) (b i : ℕ) (h : i < l.length / b) :
    ((l.drop (i * b)).take b).length = b := by
  have h1 : (i + 1) * b ≤ l.length / b * b := Nat.mul_le_mul_right _ h
  have h2 : l.length / b * b ≤ l.length := Nat.div_mul_le_self _ _
  have h3 : (i + 1) * b = i * b + b := by ring
  simp only [List.length_take, List.length_drop]
  omega

theorem flatten_chunks (l : List ℕ) (b m : ℕ) :
    ((List.range m).map (fun i => (l.drop (i * b)).take b)).flatten
      = l.take (m * b) := by
  induction m with
  | zero => simp
  | succ k ih =>
    rw [List.range_succ, List.map_append, List.flatten_append, ih]
    simp only [List.map_cons, List.map_nil, List.flatten_cons, List.flatten_nil,
      List.append_nil]
    rw [Nat.succ_mul, List.take_add]

/-! ### Claim theorems -/

/-- C1: the claim states that `Net.forward` maps every `(N, 3, 64, 64)` batch
to an `(N, 6)` output via 1332 features per image.  Evaluating the layer parameters of the code
itself at spatial size 64 refutes this: the four
convolution+batchnorm+pool blocks reduce each image to `148 * 2 * 2 = 592`
features, not 1332, so `view(-1, 1332)` raises for a single-image batch
(592 is not divisible by 1332), and a batch of 9 images is silently reshaped
to 4 rows, giving output shape `(4, 6)` instead of `(9, 6)`. -/
theorem net_forward_shape_bug :
    netFlatFeatures 64 = 592 ∧
    netForwardShape 1 64 = none ∧
    netForwardShape 9 64 = some (4, 6) ∧
    netForwardShape 9 64 ≠ some (9, 6) := by
  refine ⟨by decide, by decide, by decide, by decide⟩

/-- C2 counterexample: the claim asserts that some input distinguishes block
1 as a step sequence (`bn1`, then `pool1`, then `relu` in separate statements,
`cnn.py` lines 77-79) from the `relu(pool(bn(conv(s))))` composition used by
blocks 0, 2, 3 applied with the layers of block 1.  No parameters and no input do:
the two are the same function. -/
theorem block1_no_distinguishing_input :
    ¬ ∃ (p : NetParams) (s : Tensor3),
        block1Steps p s ≠
          normPoolActivate (conv2d p.conv1.weight p.conv1.bias 2 2) (bn2d p.bn1)
            (maxPool2d 2 2) s :=
  fun h => by
    rcases h with ⟨p, s, hne⟩
    exact hne rfl

/-- C2 (amended): the step sequence of block 1 computes exactly the
normalize→pool→activate composition used by blocks 0, 2 and 3 on every input
and every parameter assignment; the difference in `cnn.py` lines 77-79 versus
74-75 is purely syntactic. -/
theorem block1_eq_normPoolActivate (p : NetParams) (s : Tensor3) :
    block1Steps p s
      = normPoolActivate (conv2d p.conv1.weight p.conv1.bias 2 2) (bn2d p.bn1)
          (maxPool2d 2 2) s := rfl

/-- C3: on a non-empty batch with one output row per label, `accuracy` equals
the fraction of sample indices whose row-wise first-occurrence argmax equals
the corresponding label; in particular it is 1 on
`accuracy([[0,1],[1,0]], [1,0])` and 0 on `accuracy([[0,1],[1,0]], [0,1])`. -/
theorem accuracy_is_argmax_match_fraction (outputs : List (List ℚ)) (labels : List ℕ)
    (hne : labels ≠ []) (hlen : outputs.length = labels.length) :
    accuracy outputs labels
      = some ((((List.range labels.length).countP
            (fun i => npArgmax (outputs.getD i []) == labels.getD i 0)) : ℚ)
          / (labels.length : ℚ)) ∧
    accuracy [[0, 1], [1, 0]] [1, 0] = some 1 ∧
    accuracy [[0, 1], [1, 0]] [0, 1] = some 0 := by
  refine ⟨?_, ?_, ?_⟩
  · unfold accuracy
    rw [if_neg (by simpa using hne)]
    have hmaplen : (outputs.map npArgmax).length = labels.length := by simpa using hlen
    rw [countP_zip_range (outputs.map npArgmax) labels hmaplen]
    have hcong : ∀ i ∈ List.range labels.length,
        ((outputs.map npArgmax).getD i 0 == labels.getD i 0)
          = (npArgmax (outputs.getD i []) == labels.getD i 0) := by
      intro i hi
      have hio : i < outputs.length := by
        rw [hlen]; exact List.mem_range.mp hi
      have him : i < (outputs.map npArgmax).length := by simpa using hio
      rw [List.getD_eq_getElem _ _ him, List.getElem_map,
        List.getD_eq_getElem _ _ hio]
    rw [List.countP_congr (fun i hi => by rw [hcong i hi])]
  · simp [accuracy, npArgmax, npArgmaxAux]
  · simp [accuracy, npArgmax, npArgmaxAux]

/-- C3 witness: the theorem instantiated at the batch
`outputs = [[0,1],[1,0]]`, `labels = [1,0]`. -/
theorem accuracy_is_argmax_match_fraction_witness :
    accuracy [[0, 1], [1, 0]] [1, 0]
      = some ((((List.range ([1, 0] : List ℕ).length).countP
            (fun i => npArgmax (([[0, 1], [1, 0]] : List (List ℚ)).getD i [])
              == ([1, 0] : List ℕ).getD i 0)) : ℚ)
          / (([1, 0] : List ℕ).length : ℚ)) :=
  (accuracy_is_argmax_match_fraction [[0, 1], [1, 0]] [1, 0]
    (by decide) (by decide)).1

/-- C4: on every non-empty batch `accuracy` returns a value in `[0, 1]`; on
the empty batch the code divides by `float(labels.size) = 0`, an unhandled
fault (embedded as `none`). -/
theorem accuracy_range_and_empty_batch (outputs : List (List ℚ)) (labels : List ℕ)
    (hne : labels ≠ []) :
    (∃ q : ℚ, accuracy outputs labels = some q ∧ 0 ≤ q ∧ q ≤ 1) ∧
    accuracy outputs [] = none := by
  constructor
  · have hn : labels.length ≠ 0 := by simpa using hne
    have hnq : (0 : ℚ) < (labels.length : ℚ) := by
      exact_mod_cast Nat.pos_of_ne_zero hn
    refine ⟨((((outputs.map npArgmax).zip labels).countP
        (fun pr => pr.1 == pr.2) : ℚ)) / (labels.length : ℚ), ?_, ?_, ?_⟩
    · unfold accuracy
      rw [if_neg hn]
    · positivity
    · rw [div_le_one hnq]
      have hle : ((outputs.map npArgmax).zip labels).countP
          (fun pr => pr.1 == pr.2) ≤ labels.length := by
        calc ((outputs.map npArgmax).zip labels).countP (fun pr => pr.1 == pr.2)
            ≤ ((outputs.map npArgmax).zip labels).length := List.countP_le_length _
          _ ≤ labels.length := by
              rw [List.length_zip]
              exact min_le_right _ _
      exact_mod_cast hle
  · rfl

/-- C4 witness: the theorem instantiated at the batch
`outputs = [[0,1]]`, `labels = [1]`. -/
theorem accuracy_range_and_empty_batch_witness :
    (∃ q : ℚ, accuracy [[0, 1]] [1] = some q ∧ 0 ≤ q ∧ q ≤ 1) ∧
    accuracy [[0, 1]] [] = none :=
  accuracy_range_and_empty_batch [[0, 1]] [1] (by decide)

/-- C5: on every non-empty label list, the class-weight table maps each class
`k` present in the histogram to `total_count / count[k]` (exact division), the
per-sample vector satisfies `img_weights[i] = class_weights[labels[i]]`, and
no renormalisation to sum 1 happens: the weights sum to
`(number of distinct classes) * total_count`. -/
theorem class_and_img_weights_spec (labels : List ℕ) (_hne : labels ≠ []) :
    (∀ k ∈ labels, dictGet (class_weights labels) k
        = (total_count labels : ℚ) / (labels.count k : ℚ)) ∧
    (∀ i, i < labels.length →
        (img_weights labels).getD i 0
          = dictGet (class_weights labels) (labels.getD i 0)) ∧
    (img_weights labels).sum
        = (labels.dedup.length : ℚ) * (total_count labels : ℚ) := by
  refine ⟨fun k hk => dictGet_class_weights labels k hk,
    fun i hi => img_weights_getD labels i hi, img_weights_sum labels⟩

/-- C5 witness: the theorem instantiated at `labels = [0, 0, 1]`, projected to
the no-renormalisation conjunct: `3/2 + 3/2 + 3 = 2 * 3`. -/
theorem class_and_img_weights_spec_witness :
    (img_weights [0, 0, 1]).sum
      = ((([0, 0, 1] : List ℕ).dedup.length : ℚ)) * ((total_count [0, 0, 1] : ℚ)) :=
  (class_and_img_weights_spec [0, 0, 1] (by decide)).2.2

/-- C6: for any random source, the weighted sampler draws exactly
`total_count` indices per epoch, which equals the dataset size; the batch
sampler groups these consecutive draws (the concatenation of the batches is a
prefix of the draw sequence) into `total_count / batch_size` batches of
exactly `batch_size` indices each, the final partial batch being dropped
(`drop_last=True` at `data_loader.py` line 80). -/
theorem weighted_sampler_draws_and_batches (labels : List ℕ) (batchSize : ℕ)
    (u : ℕ → ℚ) :
    (weightedRandomSampler (img_weights labels) (total_count labels) u).length
        = labels.length ∧
    (∀ batch ∈ get_batched_weighted_sampler batchSize labels u,
        batch.length = batchSize) ∧
    (get_batched_weighted_sampler batchSize labels u).length
        = labels.length / batchSize ∧
    (get_batched_weighted_sampler batchSize labels u).flatten
        = (weightedRandomSampler (img_weights labels) (total_count labels) u).take
            (labels.length / batchSize * batchSize) := by
  set draws := weightedRandomSampler (img_weights labels) (total_count labels) u
    with hdraws
  have hlen : draws.length = labels.length := by
    rw [hdraws]
    unfold weightedRandomSampler
    rw [List.length_map, List.length_range, total_count_eq_length]
  have hbs : get_batched_weighted_sampler batchSize labels u
      = (List.range (draws.length / batchSize)).map
          (fun i => (draws.drop (i * batchSize)).take batchSize) := rfl
  refine ⟨hlen, ?_, ?_, ?_⟩
  · intro batch hb
    rw [hbs] at hb
    rcases List.mem_map.mp hb with ⟨i, hi, rfl⟩
    exact chunk_length draws batchSize i (List.mem_range.mp hi)
  · rw [hbs, List.length_map, List.length_range, hlen]
  · rw [hbs, flatten_chunks, hlen]

/-- C6 witness: the theorem instantiated at `labels = [0, 1, 1]`,
`batchSize = 2` and the constant-zero random source. -/
theorem weighted_sampler_draws_and_batches_witness :
    (weightedRandomSampler (img_weights [0, 1, 1]) (total_count [0, 1, 1])
        (fun _ => 0)).length = ([0, 1, 1] : List ℕ).length :=
  (weighted_sampler_draws_and_batches [0, 1, 1] 2 (fun _ => 0)).1

/-- C7: for the training split, the weighted-batch loader is returned exactly
when `params` has a `weighed_sampling` attribute equal to true; when the
attribute is absent or false the uniform shuffled loader is returned. -/
theorem train_loader_weighed_flag (p : Params) :
    (trainLoader p = LoaderCfg.weightedBatches p.batch_size ↔
        p.weighed_sampling = some true) ∧
    ((p.weighed_sampling = none ∨ p.weighed_sampling = some false) →
        trainLoader p = LoaderCfg.shuffled p.batch_size) := by
  unfold trainLoader
  rcases hws : p.weighed_sampling with _ | b
  · simp
  · cases b <;> simp

/-- C7 witness: a `params` without the `weighed_sampling` attribute gets the
uniform shuffled loader. -/
theorem train_loader_weighed_flag_witness :
    trainLoader ⟨32, 4, false, 64, none⟩ = LoaderCfg.shuffled 32 :=
  (train_loader_weighed_flag ⟨32, 4, false, 64, none⟩).2 (Or.inl rfl)

/-- C8: for every successfully constructed `LeafDataset`, the values of the
label histogram returned by `get_classes_counts` sum to the dataset size
returned by `__len__`. -/
theorem class_counts_sum_eq_size (dataDir : PyStr) (listing : List PyStr)
    (d : LeafDataset) (h : leafDatasetInit dataDir listing = some d) :
    ((d.get_classes_counts).map (fun kv => kv.2)).sum = d.size := by
  unfold leafDatasetInit at h
  cases hp : parseLabels (listing.filter (fun f => jpgSuffix.isSuffixOf f)) with
  | none => rw [hp] at h; cases h
  | some ls =>
    rw [hp, Option.some_inj] at h
    subst h
    unfold LeafDataset.get_classes_counts LeafDataset.size
    rw [classCounts_values_sum, List.length_map,
      parseLabels_length _ _ hp]

/-- C8 witness: the theorem instantiated at a one-file directory listing. -/
theorem class_counts_sum_eq_size_witness :
    ((LeafDataset.get_classes_counts
        ⟨[['d', '/', '0', 'a', '.', 'j', 'p', 'g']], [0]⟩).map
      (fun kv => kv.2)).sum
      = LeafDataset.size ⟨[['d', '/', '0', 'a', '.', 'j', 'p', 'g']], [0]⟩ :=
  class_counts_sum_eq_size ['d'] [['0', 'a', '.', 'j', 'p', 'g']]
    ⟨[['d', '/', '0', 'a', '.', 'j', 'p', 'g']], [0]⟩ (by rfl)

/-- C9 counterexample: the claim asserts that the label of every included file lies in
`[0, 5]`.  A directory entry `7leaf.jpg` is accepted (construction succeeds,
no fault) with label 7, which is outside `[0, 5]`. -/
theorem leaf_label_range_counterexample :
    leafDatasetInit ['d'] [['7', 'l', 'e', 'a', 'f', '.', 'j', 'p', 'g']]
        = some ⟨[['d', '/', '7', 'l', 'e', 'a', 'f', '.', 'j', 'p', 'g']], [7]⟩ ∧
    ¬ (7 : ℕ) ≤ 5 := by
  refine ⟨by rfl, by decide⟩

/-- C9 (amended): for every file included in a `LeafDataset` the label is the
digit value of the first character of its directory entry, hence an integer
in `[0, 9]` (not `[0, 5]`, which is only a naming convention); construction
fails with an uncaught fault exactly when some `.jpg` entry has a non-numeric
(or missing) first character. -/
theorem leaf_labels_are_leading_digits (dataDir : PyStr) (listing : List PyStr) :
    (∀ d, leafDatasetInit dataDir listing = some d →
        ∀ i, i < d.labels.length →
          parseLabel ((listing.filter (fun f => jpgSuffix.isSuffixOf f)).getD i [])
              = some (d.labels.getD i 0) ∧
          d.labels.getD i 0 ≤ 9) ∧
    (leafDatasetInit dataDir listing = none ↔
        ∃ f ∈ listing.filter (fun f => jpgSuffix.isSuffixOf f),
          parseLabel f = none) := by
  constructor
  · intro d hd i hi
    unfold leafDatasetInit at hd
    cases hp : parseLabels (listing.filter (fun f => jpgSuffix.isSuffixOf f)) with
    | none => rw [hp] at hd; cases hd
    | some ls =>
      rw [hp, Option.some_inj] at hd
      subst hd
      have hil : i < ls.length := hi
      have hif : i < (listing.filter (fun f => jpgSuffix.isSuffixOf f)).length := by
        rw [← parseLabels_length _ _ hp]; exact hil
      have hgd := parseLabels_getD _ _ hp i hif
      refine ⟨hgd, ?_⟩
      cases hf : (listing.filter (fun f => jpgSuffix.isSuffixOf f)).getD i [] with
      | nil => rw [hf] at hgd; cases hgd
      | cons c rest =>
        rw [hf] at hgd
        exact pyIntOfChar_le_nine c _ hgd
  · unfold leafDatasetInit
    cases hp : parseLabels (listing.filter (fun f => jpgSuffix.isSuffixOf f)) with
    | none =>
      simpa using (parseLabels_eq_none_iff _).mp hp
    | some ls =>
      constructor
      · intro hc; cases hc
      · intro hex
        rw [← parseLabels_eq_none_iff] at hex
        rw [hp] at hex; cases hex

/-- C9 witness: a listing whose only `.jpg` entry starts with a non-digit
makes construction fail. -/
theorem leaf_labels_are_leading_digits_witness :
    leafDatasetInit ['d'] [['x', '.', 'j', 'p', 'g']] = none :=
  (leaf_labels_are_leading_digits ['d'] [['x', '.', 'j', 'p', 'g']]).2.mpr
    ⟨['x', '.', 'j', 'p', 'g'], by decide, by decide⟩

/-- C10: the keys of the dictionary returned by `fetch_dataloader` are
exactly the members of `types` that are also in `['train', 'val', 'test']`;
any other string in `types` is silently ignored, so a `types` containing only
unrecognised names yields the empty dictionary. -/
theorem fetch_dataloader_keys (types : List PyStr) (p : Params) :
    (∀ s : PyStr, s ∈ (fetch_dataloader types p).map Prod.fst ↔
        s ∈ types ∧ s ∈ [trainName, valName, testName]) ∧
    fetch_dataloader [['f', 'o', 'o']] p = [] := by
  constructor
  · intro s
    unfold fetch_dataloader
    rw [List.map_map]
    have hfst : (Prod.fst ∘ fun split : PyStr =>
        (split, if split = trainName then trainLoader p
          else LoaderCfg.sequential p.batch_size)) = id := rfl
    rw [hfst, List.map_id, List.mem_filter]
    simp [and_comm]
  · unfold fetch_dataloader
    rw [show ([trainName, valName, testName].filter
        (fun s => s ∈ ([['f', 'o', 'o']] : List PyStr))) = [] from by decide]
    rfl

/-- C10 witness: instantiation at `types = ['foo']`: the returned dictionary
is empty. -/
theorem fetch_dataloader_keys_witness :
    fetch_dataloader [['f', 'o', 'o']] ⟨32, 4, false, 64, none⟩ = [] :=
  (fetch_dataloader_keys [['f', 'o', 'o']] ⟨32, 4, false, 64, none⟩).2

end CoffeeLeaf
